import Mathlib

/-!
Shallow embedding of WiredTiger's value-resolution core:
`src/support/modify.c` (buffer splice engine and delta codec) and
`src/btree/bt_ret.c` (visible-value resolver and cursor materialization).

Buffers are modelled as lists of bytes (`List Nat`); a `WT_ITEM`'s logical
content is the byte range `[0, size)`, so `size` is the list's length.
Machine `size_t` arithmetic that matters (the splice size update) is modelled
explicitly with `% 2 ^ 64`.
-/

/-- `WT_MODIFY`: one edit entry, a splice instruction.  The C struct carries a
data item (`data.data` / `data.size`), the byte `offset`, and the replaced
byte count `size`.  Here `data.size` is `data.length`. -/
structure WT_MODIFY where
  data : List Nat
  offset : Nat
  size : Nat
deriving DecidableEq

/-- The replacement-size clamp of `__modify_apply_one` (modify.c:108-109):
`if (value->size < offset + size) size = value->size - offset;`. -/
def clampSize (bufLen offset size : Nat) : Nat :=
  if bufLen < offset + size then bufLen - offset else size

/-- `__modify_apply_one` (modify.c:58-152), on the buffer's logical content.
The capacity growth (modify.c:77-79) does not change logical content; its
only failure mode (allocation) is modelled by `modify_apply_one_c` below.
The branches, in the C order: the interior-overwrite fast path
(`value->size > offset + data_size && data_size == size`, modify.c:85-88),
the tail append with gap zero-fill (`value->size <= offset`, modify.c:94-101),
and, after the clamp, the equal-length overwrite (modify.c:111-120) or the
size-changing splice that shifts the trailing bytes (modify.c:121-149). -/
def modify_apply_one (value : List Nat) (offset size : Nat) (data : List Nat) :
    List Nat :=
  if offset + data.length < value.length ∧ data.length = size then
    value.take offset ++ data ++ value.drop (offset + data.length)
  else if value.length ≤ offset then
    value ++ List.replicate (offset - value.length) 0 ++ data
  else if data.length = clampSize value.length offset size then
    value.take offset ++ data
  else
    value.take offset ++ data ++
      value.drop (offset + clampSize value.length offset size)

/-- The capacity requested by `__modify_apply_one`'s growth step
(modify.c:78-79) for a buffer whose data starts at its memory (`len = 0`):
`WT_MAX(value->size, offset) + data_size`. -/
def modify_grow_need (value : List Nat) (offset : Nat) (data : List Nat) :
    Nat :=
  max value.length offset + data.length

/-- `__modify_apply_one` with its fallible structure: the only early return is
`WT_RET(__wt_buf_grow(...))` (modify.c:78), so the result is an error exactly
when the allocation of the requested capacity fails.  The allocator is the
external collaborator `grow`, which says whether a given capacity can be
allocated. -/
def modify_apply_one_c (grow : Nat → Bool) (value : List Nat)
    (offset size : Nat) (data : List Nat) : Except Unit (List Nat) :=
  if grow (modify_grow_need value offset data) then
    Except.ok (modify_apply_one value offset size data)
  else
    Except.error ()

/-- `__wt_modify_apply_api` (modify.c:159-171): apply a list of `WT_MODIFY`
entries to the buffer, in order. -/
def modify_apply_api (value : List Nat) (entries : List WT_MODIFY) :
    List Nat :=
  entries.foldl (fun v e => modify_apply_one v e.offset e.size e.data) value

/-- The packed modify blob built by `__wt_modify_pack` (modify.c:15-52).  The
blob is one memory region: a `size_t` header (the entry count followed by the
per-entry triples, in entry order) and then the concatenated data bytes.  The
two regions are kept as two lists, since the header is read word-wise and the
tail byte-wise. -/
structure PackedModify where
  words : List Nat
  bytes : List Nat
deriving DecidableEq

/-- `__wt_modify_pack` (modify.c:15-52): the count, then for each entry the
triple `(data.size, offset, size)` (modify.c:42-44), then the data bytes
concatenated in entry order (modify.c:46-47). -/
def modify_pack (entries : List WT_MODIFY) : PackedModify :=
  { words := entries.length ::
      (entries.map (fun e => [e.data.length, e.offset, e.size])).flatten,
    bytes := (entries.map (fun e => e.data)).flatten }

/-- The decode loop of `__wt_modify_apply` (modify.c:194-196): step through
`n` triples, slicing `p[0]` data bytes for each and applying it with offset
`p[1]` and replace length `p[2]`.  A header shorter than the count promises
is unreachable for blobs built by `modify_pack` (the C code would read out of
bounds there); the model stops applying. -/
def modify_apply_entries : Nat → List Nat → List Nat → List Nat → List Nat
  | 0, _, _, value => value
  | n + 1, dlen :: off :: sz :: rest, bytes, value =>
      modify_apply_entries n rest (bytes.drop dlen)
        (modify_apply_one value off sz (bytes.take dlen))
  | _ + 1, [], _, value => value
  | _ + 1, [_], _, value => value
  | _ + 1, [_, _], _, value => value

/-- `__wt_modify_apply` (modify.c:177-199): read the entry count from the
blob's first word, then apply the entries in stored order.  An empty word
region is unreachable for packed blobs. -/
def modify_apply (value : List Nat) (m : PackedModify) : List Nat :=
  match m.words with
  | [] => value
  | n :: rest => modify_apply_entries n rest m.bytes value

/-- The splice path's size update `value->size += (data_size - size);`
(modify.c:148), in `size_t` (64-bit unsigned modular) arithmetic: the inner
subtraction wraps, and so does the addition. -/
def wtSizeT : Nat := 2 ^ 64

/-- The modular value computed by modify.c:148 for operands below `2 ^ 64`. -/
def spliceNewSize (oldSize dataSize size : Nat) : Nat :=
  (oldSize + (dataSize + wtSizeT - size) % wtSizeT) % wtSizeT

/-- `WT_UPDATE.type` as used by `__value_return_upd` (bt_ret.c):
`WT_UPDATE_STANDARD` (a full value), `WT_UPDATE_MODIFIED` (a packed modify
blob), `WT_UPDATE_DELETED` (a tombstone). -/
inductive UpdType
  | standard
  | modified
  | deleted
deriving DecidableEq

/-- One `WT_UPDATE` chain node: its type, its data bytes (meaningful for
standard updates), its payload read as a packed modify blob (meaningful for
modified updates), and the verdict of the external visibility predicate
`__wt_txn_upd_visible` for this reader. -/
structure Upd where
  type : UpdType
  data : List Nat
  blob : PackedModify
  visible : Bool
deriving DecidableEq

/-- `WT_UPDATE_DATA_VALUE`: the update carries a full data value, i.e. it is
standard or deleted. -/
def updDataValue (u : Upd) : Bool :=
  match u.type with
  | UpdType.standard => true
  | UpdType.deleted => true
  | UpdType.modified => false

/-- The collection loop of `__value_return_upd` (bt_ret.c:167-191): walk the
chain newest-to-oldest, skip invisible nodes, stop at the first visible
data-value node (the base), and record each visible modified node's blob in
walk order.  Returns the collected blobs and the base (`none` when the chain
is exhausted, i.e. `upd == NULL`).  The stack-then-heap spill of the C list
(bt_ret.c:181-188) does not change which blobs are collected. -/
def collectModifies : List Upd → List PackedModify × Option Upd
  | [] => ([], none)
  | u :: rest =>
      if u.visible = false then collectModifies rest
      else if updDataValue u then ([], some u)
      else
        let r := collectModifies rest
        (u.blob :: r.1, r.2)

/-- The base-value initialization of `__value_return_upd` (bt_ret.c:197-213):
chain exhausted means fall back to the on-page value (`__value_return`,
modelled as the external decoder's output `fallback`); a deleted base yields
the zero-length value; a standard base yields its data bytes. -/
def updBaseValue (fallback : List Nat) : Option Upd → List Nat
  | none => fallback
  | some u => if u.type = UpdType.deleted then [] else u.data

/-- `__value_return_upd` (bt_ret.c:136-222), on the resolved value bytes: the
standard fast path (bt_ret.c:156-160) returns the head's data; otherwise the
walk collects visible modified blobs until the base, the value is initialized
from the base, and the collected blobs are replayed in reverse collection
order (`listp[--i]`, bt_ret.c:215-217), i.e. oldest first.  An empty chain is
unreachable (the C caller passes a non-null, visible update). -/
def value_return_upd (chain : List Upd) (fallback : List Nat) : List Nat :=
  match chain with
  | [] => fallback
  | head :: _ =>
      if head.type = UpdType.standard then head.data
      else
        let r := collectModifies chain
        r.1.reverse.foldl modify_apply (updBaseValue fallback r.2)

/-- A cursor's return-state fields used by `__wt_key_return` and
`__wt_value_return` (bt_ret.c:228-271): the external/internal flags
(`WT_CURSTD_KEY_EXT` / `WT_CURSTD_KEY_INT` / `WT_CURSTD_VALUE_EXT` /
`WT_CURSTD_VALUE_INT`) and the key and value items. -/
structure WT_CURSOR where
  keyExt : Bool
  keyInt : Bool
  valueExt : Bool
  valueInt : Bool
  key : List Nat
  value : List Nat
deriving DecidableEq

/-- `__wt_key_return` (bt_ret.c:228-250): clear the external-key flag; if the
internal-key flag is not set, materialize the key (`__key_return`, modelled
as the external materializer `keyMat` over the cursor's positioning state)
and set the internal-key flag; otherwise leave the key alone. -/
def wt_key_return (keyMat : WT_CURSOR → List Nat) (c : WT_CURSOR) :
    WT_CURSOR :=
  let c1 := { c with keyExt := false }
  if c1.keyInt = true then c1
  else { c1 with key := keyMat c1, keyInt := true }

/-- `__wt_value_return` (bt_ret.c:256-271): clear the external-value flag,
materialize the value — from the on-page fallback when `upd == NULL`
(`__value_return`), else through `__value_return_upd` on the update chain —
and set the internal-value flag.  There is no internal-flag guard on this
side. -/
def wt_value_return (chain : Option (List Upd)) (fallback : List Nat)
    (c : WT_CURSOR) : WT_CURSOR :=
  let c1 := { c with valueExt := false }
  let v := match chain with
    | none => fallback
    | some ch => value_return_upd ch fallback
  { c1 with value := v, valueInt := true }

/-- The shape premise of the chronological-replay claims: the chain's visible
nodes, followed newest-to-oldest up to and including the first visible
data-value node, are the modified nodes `ms` (in walk order) and then the
base `b`; `b = none` means the walk exhausts the chain and the base is the
on-disk fallback. -/
inductive ChainShape : List Upd → List Upd → Option Upd → Prop
  | nil : ChainShape [] [] none
  | found (u : Upd) (rest : List Upd) :
      u.visible = true → updDataValue u = true →
      ChainShape (u :: rest) [] (some u)
  | skip (u : Upd) {rest : List Upd} {ms : List Upd} {b : Option Upd} :
      u.visible = false → ChainShape rest ms b →
      ChainShape (u :: rest) ms b
  | collect (u : Upd) {rest : List Upd} {ms : List Upd} {b : Option Upd} :
      u.visible = true → u.type = UpdType.modified → ChainShape rest ms b →
      ChainShape (u :: rest) (u :: ms) b

/-! ## Helper lemmas -/

lemma clampSize_eq_min {bufLen offset size : Nat} (h : offset ≤ bufLen) :
    clampSize bufLen offset size = min size (bufLen - offset) := by
  unfold clampSize
  split <;> omega

lemma modify_apply_one_split (value : List Nat) (offset size : Nat)
    (data : List Nat) (h : offset < value.length) :
    modify_apply_one value offset size data =
      value.take offset ++ data ++
        value.drop (offset + min size (value.length - offset)) := by
  unfold modify_apply_one
  rw [clampSize_eq_min (Nat.le_of_lt h)]
  split_ifs with h1 h2 h3
  · obtain ⟨h1a, h1b⟩ := h1
    have hx : offset + data.length =
        offset + min size (value.length - offset) := by omega
    rw [hx]
  · exact absurd h2 (by omega)
  · have hdrop :
        value.drop (offset + min size (value.length - offset)) = [] := by
      apply List.drop_eq_nil_of_le
      omega
    rw [hdrop, List.append_nil]
  · rfl

/-! ## Claim theorems: buffer splice engine -/

/-- Claim C2: for every buffer and every edit, after `modify_apply_one` the
byte range starting at the edit's offset and as long as the new data reads
back exactly the new data, in all three code paths (interior overwrite, tail
append with gap fill, size-changing splice), whether the edit grows, shrinks
or preserves the buffer's length. -/
theorem modify_apply_one_readback (value : List Nat) (offset size : Nat)
    (data : List Nat) :
    ((modify_apply_one value offset size data).drop offset).take data.length
      = data := by
  rcases Nat.lt_or_ge offset value.length with h | h
  · rw [modify_apply_one_split value offset size data h, List.append_assoc,
      List.drop_left'
        (show (value.take offset).length = offset by
          rw [List.length_take]; omega),
      List.take_left' rfl]
  · unfold modify_apply_one
    have h1 : ¬(offset + data.length < value.length ∧ data.length = size) := by
      omega
    rw [if_neg h1, if_pos h,
      List.drop_left'
        (show (value ++ List.replicate (offset - value.length) 0).length =
            offset by
          simp [List.length_append, List.length_replicate]; omega),
      List.take_length]

/-- Claim C6: for every buffer and every edit whose offset is at or past the
buffer's end, `modify_apply_one` zero-fills the gap between the old end and
the offset (a no-op when they coincide), writes the data at the offset, and
the new length is offset plus the data length; the replace length is ignored
entirely (the result does not depend on it). -/
theorem modify_apply_one_append (value : List Nat) (offset size : Nat)
    (data : List Nat) (h : value.length ≤ offset) :
    modify_apply_one value offset size data =
      value ++ List.replicate (offset - value.length) 0 ++ data ∧
    (modify_apply_one value offset size data).length = offset + data.length
    := by
  have h1 : ¬(offset + data.length < value.length ∧ data.length = size) := by
    omega
  have heq : modify_apply_one value offset size data =
      value ++ List.replicate (offset - value.length) 0 ++ data := by
    unfold modify_apply_one
    rw [if_neg h1, if_pos h]
  refine ⟨heq, ?_⟩
  rw [heq]
  simp [List.length_append, List.length_replicate]
  omega

/-- Witness for C6, the spec's boundary case: a buffer of length 2, an edit
five bytes past the end with a nonzero replace length, yielding the old
bytes, five zero bytes, then the data. -/
theorem modify_apply_one_append_witness :
    modify_apply_one [1, 2] 7 3 [9] = [1, 2, 0, 0, 0, 0, 0, 9] ∧
    (modify_apply_one [1, 2] 7 3 [9]).length = 7 + 1 := by
  have h := modify_apply_one_append [1, 2] 7 3 [9] (by decide)
  exact ⟨h.1.trans (by decide), h.2⟩

/-- Claim C7: in the size-changing splice path (offset interior, replace
length within the buffer after clamping), the single unsigned modular
expression of modify.c:148 computes exactly the new buffer length
`old + len(data) - replace_len`, for both the growing and the shrinking
case, with no wraparound affecting the final value (given that the grown
buffer's byte count is representable in `size_t`). -/
theorem splice_size_arithmetic (value data : List Nat) (offset size : Nat)
    (hoff : offset < value.length) (hcl : offset + size ≤ value.length)
    (hne : data.length ≠ size)
    (hfit : value.length + data.length < wtSizeT) :
    spliceNewSize value.length data.length size =
      value.length + data.length - size ∧
    (modify_apply_one value offset size data).length =
      value.length + data.length - size := by
  have h64 : wtSizeT = 18446744073709551616 := by norm_num [wtSizeT]
  rw [h64] at hfit
  constructor
  · simp only [spliceNewSize, h64]
    omega
  · rw [modify_apply_one_split value offset size data hoff]
    simp [List.length_append, List.length_take, List.length_drop]
    omega

/-- Witness for C7: a shrinking splice on a four-byte buffer, replacing two
interior bytes with one. -/
theorem splice_size_arithmetic_witness :
    spliceNewSize 4 1 2 = 4 + 1 - 2 ∧
    (modify_apply_one [1, 2, 3, 4] 1 2 [7]).length = 4 + 1 - 2 := by
  have h := splice_size_arithmetic [1, 2, 3, 4] [7] 1 2 (by decide) (by decide)
    (by decide) (by norm_num [wtSizeT])
  exact h

/-- Claim C8: `modify_apply_one` never rejects an edit because of its offset
or replace length: whenever the capacity growth succeeds (the only fallible
step), the call returns the applied buffer, and when the offset is inside the
buffer but the replace length runs past the end, the replace length is
silently clamped to the remaining bytes — applying the clamped edit gives the
same result. -/
theorem modify_apply_one_total_clamp (grow : Nat → Bool) (value : List Nat)
    (offset size : Nat) (data : List Nat)
    (hgrow : grow (modify_grow_need value offset data) = true) :
    modify_apply_one_c grow value offset size data =
      Except.ok (modify_apply_one value offset size data) ∧
    (offset < value.length → value.length < offset + size →
      modify_apply_one value offset size data =
        modify_apply_one value offset (value.length - offset) data) := by
  constructor
  · unfold modify_apply_one_c
    rw [if_pos hgrow]
  · intro h1 h2
    rw [modify_apply_one_split value offset size data h1,
      modify_apply_one_split value offset (value.length - offset) data h1]
    have hx : min size (value.length - offset) =
        min (value.length - offset) (value.length - offset) := by omega
    rw [hx]

/-- Witness for C8: a replace length of 99 on a three-byte buffer at offset 1
is clamped to 2, and the call succeeds under a successful allocator. -/
theorem modify_apply_one_total_clamp_witness :
    modify_apply_one_c (fun _ => true) [1, 2, 3] 1 99 [5, 6] =
      Except.ok (modify_apply_one [1, 2, 3] 1 99 [5, 6]) ∧
    modify_apply_one [1, 2, 3] 1 99 [5, 6] =
      modify_apply_one [1, 2, 3] 1 2 [5, 6] := by
  have h := modify_apply_one_total_clamp (fun _ => true) [1, 2, 3] 1 99 [5, 6]
    rfl
  exact ⟨h.1, h.2 (by decide) (by decide)⟩

/-- Claim C9: for every strictly interior equal-length edit (replace length
equals the data length and the edit ends strictly before the buffer's end),
`modify_apply_one` takes the in-place overwrite fast path: the data is
written over the addressed range, the buffer length is unchanged, and every
byte outside the range is unchanged. -/
theorem modify_apply_one_fast_path (value : List Nat) (offset : Nat)
    (data : List Nat) (h : offset + data.length < value.length) :
    modify_apply_one value offset data.length data =
      value.take offset ++ data ++ value.drop (offset + data.length) ∧
    (modify_apply_one value offset data.length data).length = value.length
    := by
  have heq : modify_apply_one value offset data.length data =
      value.take offset ++ data ++ value.drop (offset + data.length) := by
    unfold modify_apply_one
    rw [if_pos ⟨h, rfl⟩]
  refine ⟨heq, ?_⟩
  rw [heq]
  simp [List.length_append, List.length_take, List.length_drop]
  omega

/-- Witness for C9: overwriting two interior bytes of a five-byte buffer. -/
theorem modify_apply_one_fast_path_witness :
    modify_apply_one [1, 2, 3, 4, 5] 1 2 [8, 9] = [1, 8, 9, 4, 5] ∧
    (modify_apply_one [1, 2, 3, 4, 5] 1 2 [8, 9]).length = 5 := by
  have h := modify_apply_one_fast_path [1, 2, 3, 4, 5] 1 [8, 9] (by decide)
  exact ⟨h.1.trans (by decide), h.2⟩

/-- Claim C10: in every application of `modify_apply_one` with the offset
inside the buffer, the prefix before the offset is unchanged, and the old
bytes that followed the replaced region (whose length is the replace length
clamped to the bytes remaining past the offset) appear unchanged and
contiguously immediately after the new data; only the replaced region is
overwritten. -/
theorem modify_apply_one_frame (value : List Nat) (offset size : Nat)
    (data : List Nat) (h : offset < value.length) :
    modify_apply_one value offset size data =
      value.take offset ++ data ++
        value.drop (offset + min size (value.length - offset)) :=
  modify_apply_one_split value offset size data h

/-- Witness for C10: a growing splice on a five-byte buffer, replacing two
bytes at offset 1 with three; the prefix and the trailing two bytes are
preserved around the new data. -/
theorem modify_apply_one_frame_witness :
    modify_apply_one [1, 2, 3, 4, 5] 1 2 [7, 8, 9] = [1, 7, 8, 9, 4, 5] := by
  have h := modify_apply_one_frame [1, 2, 3, 4, 5] 1 2 [7, 8, 9] (by decide)
  exact h.trans (by decide)

/-! ## Codec helper lemmas -/

lemma modify_apply_api_append (value : List Nat)
    (es₁ es₂ : List WT_MODIFY) :
    modify_apply_api value (es₁ ++ es₂) =
      modify_apply_api (modify_apply_api value es₁) es₂ := by
  unfold modify_apply_api
  rw [List.foldl_append]

lemma modify_apply_entries_pack (entries : List WT_MODIFY) :
    ∀ value : List Nat,
      modify_apply_entries entries.length
        ((entries.map fun e => [e.data.length, e.offset, e.size]).flatten)
        ((entries.map fun e => e.data).flatten) value =
      modify_apply_api value entries := by
  induction entries with
  | nil => intro value; rfl
  | cons e es ih =>
      intro value
      simp only [List.map_cons, List.flatten_cons, List.length_cons,
        List.cons_append, List.nil_append]
      rw [modify_apply_entries, List.take_left' rfl, List.drop_left' rfl]
      exact ih (modify_apply_one value e.offset e.size e.data)

lemma modify_apply_pack_eq (entries : List WT_MODIFY) (value : List Nat) :
    modify_apply value (modify_pack entries) = modify_apply_api value entries
    := modify_apply_entries_pack entries value

lemma foldl_modify_apply_pack (l : List (List WT_MODIFY)) :
    ∀ value : List Nat,
      (l.map modify_pack).foldl modify_apply value =
        modify_apply_api value l.flatten := by
  induction l with
  | nil => intro value; rfl
  | cons es l ih =>
      intro value
      simp only [List.map_cons, List.foldl_cons, List.flatten_cons]
      rw [modify_apply_pack_eq es value, ih, modify_apply_api_append]

/-! ## Claim theorem: delta codec round-trip -/

/-- Claim C3: decoding the blob produced by packing an ordered edit sequence
and applying it to a buffer gives the same buffer as applying the edits
directly in that order: `__wt_modify_apply` composed with `__wt_modify_pack`
is extensionally `__wt_modify_apply_api` on the same entries. -/
theorem modify_apply_pack_roundtrip (entries : List WT_MODIFY)
    (value : List Nat) :
    modify_apply value (modify_pack entries) = modify_apply_api value entries
    := modify_apply_pack_eq entries value

/-! ## Resolver helper lemmas -/

lemma collectModifies_shape {chain : List Upd} {ms : List Upd}
    {b : Option Upd} (h : ChainShape chain ms b) :
    collectModifies chain = (ms.map Upd.blob, b) := by
  induction h with
  | nil => rfl
  | found u rest hv hd => simp [collectModifies, hv, hd]
  | skip u hv _ ih => simp [collectModifies, hv, ih]
  | collect u hv ht _ ih =>
      have hd : updDataValue u = false := by
        unfold updDataValue
        rw [ht]
      simp [collectModifies, hv, hd, ih]

/-! ## Claim theorems: visible-value resolver -/

/-- Claim C1: for every update chain whose visible nodes, newest-to-oldest,
are a sequence of modified (incremental) updates followed by a base (a
standard update, a tombstone, or the end of the chain, which falls back to
the on-page value), and whose head is visible, resolving the value equals
initializing the buffer from the base and then applying the collected
incremental updates' edits oldest-first — the edits of the deepest update
first, each update's edits in stored order. -/
theorem value_return_upd_chronological (h0 : Upd) (rest ms : List Upd)
    (b : Option Upd) (fallback : List Nat) (ess : List (List WT_MODIFY))
    (hshape : ChainShape (h0 :: rest) ms b)
    (hvis : h0.visible = true)
    (hpack : ms.map Upd.blob = ess.map modify_pack) :
    value_return_upd (h0 :: rest) fallback =
      modify_apply_api (updBaseValue fallback b) ess.reverse.flatten := by
  have hcol := collectModifies_shape hshape
  cases hshape with
  | found _ _ hv hd =>
      have hess : ess = [] := by
        have h := hpack.symm
        simp only [List.map_nil] at h
        exact List.map_eq_nil_iff.mp h
      subst hess
      by_cases hstd : h0.type = UpdType.standard
      · simp [value_return_upd, hstd, updBaseValue, modify_apply_api]
      · have hdel : h0.type = UpdType.deleted := by
          revert hd hstd
          unfold updDataValue
          cases h0.type <;> simp
        simp only [value_return_upd]
        rw [if_neg hstd, hcol]
        simp [updBaseValue, hdel, modify_apply_api]
  | skip _ hv' _ =>
      rw [hvis] at hv'
      cases hv'
  | collect _ hv' ht hrest =>
      have hstd : ¬ h0.type = UpdType.standard := by
        rw [ht]
        intro hc
        cases hc
      simp only [value_return_upd]
      rw [if_neg hstd, hcol]
      simp only []
      rw [hpack, ← List.map_reverse]
      exact foldl_modify_apply_pack ess.reverse (updBaseValue fallback b)

/-- Witness for C1: a chain of one visible modified update above a visible
standard base holding bytes 1,2,3; the single edit replaces the first byte
with 9, so resolution yields 9,2,3 — the base replayed with the edit. -/
theorem value_return_upd_chronological_witness :
    value_return_upd
      [{ type := UpdType.modified, data := [],
         blob := modify_pack [⟨[9], 0, 1⟩], visible := true },
       { type := UpdType.standard, data := [1, 2, 3],
         blob := modify_pack [], visible := true }] [] = [9, 2, 3] := by
  have h := value_return_upd_chronological
    { type := UpdType.modified, data := [],
      blob := modify_pack [⟨[9], 0, 1⟩], visible := true }
    [{ type := UpdType.standard, data := [1, 2, 3],
       blob := modify_pack [], visible := true }]
    [{ type := UpdType.modified, data := [],
       blob := modify_pack [⟨[9], 0, 1⟩], visible := true }]
    (some { type := UpdType.standard, data := [1, 2, 3],
            blob := modify_pack [], visible := true })
    [] [[⟨[9], 0, 1⟩]]
    (ChainShape.collect _ rfl rfl (ChainShape.found _ _ rfl rfl))
    rfl rfl
  exact h.trans (by decide)

/-- Counterexample to claim C4 as stated: a chain whose nearest visible
data-value node is a tombstone but which has a visible modified update above
it does not resolve to a zero-length value — the collected edits are
replayed onto the empty base, here yielding three bytes. -/
theorem tombstone_replay_cex :
    value_return_upd
      [{ type := UpdType.modified, data := [],
         blob := modify_pack [⟨[7, 8, 9], 0, 0⟩], visible := true },
       { type := UpdType.deleted, data := [],
         blob := modify_pack [], visible := true }] [] = [7, 8, 9] ∧
    (value_return_upd
      [{ type := UpdType.modified, data := [],
         blob := modify_pack [⟨[7, 8, 9], 0, 0⟩], visible := true },
       { type := UpdType.deleted, data := [],
         blob := modify_pack [], visible := true }] []).length ≠ 0 := by
  constructor
  · rfl
  · decide

/-- Claim C4 as amended: when the nearest visible data-value node of the
chain is a tombstone, the resolver initializes the result to a zero-length
value and then, without error, replays any incremental updates collected
above the tombstone onto it (oldest first); in particular the resolved value
is zero-length whenever no incremental updates were collected above the
tombstone.  The walk itself never goes past the tombstone. -/
theorem tombstone_base_replay (h0 : Upd) (rest ms : List Upd) (b : Upd)
    (fallback : List Nat)
    (hshape : ChainShape (h0 :: rest) ms (some b))
    (hvis : h0.visible = true)
    (hdel : b.type = UpdType.deleted) :
    value_return_upd (h0 :: rest) fallback =
      (ms.map Upd.blob).reverse.foldl modify_apply [] ∧
    (ms = [] → value_return_upd (h0 :: rest) fallback = []) := by
  have hcol := collectModifies_shape hshape
  have hstd : ¬ h0.type = UpdType.standard := by
    cases hshape with
    | found _ _ hv hd =>
        rw [hdel]
        intro hc
        cases hc
    | skip _ hv' _ =>
        rw [hvis] at hv'
        cases hv'
    | collect _ _ ht _ =>
        rw [ht]
        intro hc
        cases hc
  have main : value_return_upd (h0 :: rest) fallback =
      (ms.map Upd.blob).reverse.foldl modify_apply [] := by
    simp only [value_return_upd]
    rw [if_neg hstd, hcol]
    simp [updBaseValue, hdel]
  exact ⟨main, fun hms => by rw [main, hms]; rfl⟩

/-- Witness for C4 (amended): a chain consisting of just a visible tombstone
resolves to the zero-length value, ignoring the on-page fallback. -/
theorem tombstone_base_replay_witness :
    value_return_upd
      [{ type := UpdType.deleted, data := [5],
         blob := modify_pack [], visible := true }] [7] = [] :=
  (tombstone_base_replay
    { type := UpdType.deleted, data := [5],
      blob := modify_pack [], visible := true }
    [] []
    { type := UpdType.deleted, data := [5],
      blob := modify_pack [], visible := true }
    [7]
    (ChainShape.found _ _ rfl rfl) rfl rfl).2 rfl

/-! ## Claim theorems: cursor materialization flags -/

/-- Counterexample to claim C5 as stated: the value side has no internal-flag
guard.  A cursor whose internal-value flag is already set still has its value
re-materialized by `wt_value_return` — here the stored value 1 is replaced by
the freshly materialized value 9. -/
theorem value_return_refreshes_cex :
    ({ keyExt := false, keyInt := false, valueExt := false, valueInt := true,
       key := [], value := [1] } : WT_CURSOR).valueInt = true ∧
    (wt_value_return none [9]
      { keyExt := false, keyInt := false, valueExt := false, valueInt := true,
        key := [], value := [1] }).value ≠
      ({ keyExt := false, keyInt := false, valueExt := false,
         valueInt := true, key := [], value := [1] } : WT_CURSOR).value := by
  decide

/-- Claim C5 as amended: the key side is idempotent and is skipped when the
cursor's key is already flagged internal — `wt_key_return` then only clears
the external flag, leaving the key unchanged and never consulting the
materializer; the value side re-materializes unconditionally — even with the
internal-value flag set, `wt_value_return` recomputes the value from the
update chain (or the on-page fallback) rather than leaving it unchanged. -/
theorem key_skip_value_rematerialize (keyMat : WT_CURSOR → List Nat)
    (c : WT_CURSOR) (chain : Option (List Upd)) (fallback : List Nat) :
    (c.keyInt = true → wt_key_return keyMat c = { c with keyExt := false }) ∧
    wt_key_return keyMat (wt_key_return keyMat c) = wt_key_return keyMat c ∧
    (wt_value_return chain fallback c).value =
      (match chain with
       | none => fallback
       | some ch => value_return_upd ch fallback) := by
  refine ⟨?_, ?_, rfl⟩
  · intro hint
    unfold wt_key_return
    rw [if_pos (show ({ c with keyExt := false } : WT_CURSOR).keyInt = true
      from hint)]
  · cases c with
    | mk ke ki ve vi k v =>
        by_cases hk : ki = true <;>
          simp [wt_key_return, hk]

/-- Witness for C5 (amended): a cursor with both internal flags set keeps its
key but has its value recomputed from a one-node standard chain. -/
theorem key_skip_value_rematerialize_witness :
    wt_key_return (fun _ => [3])
      { keyExt := true, keyInt := true, valueExt := false, valueInt := true,
        key := [5], value := [6] } =
      { keyExt := false, keyInt := true, valueExt := false, valueInt := true,
        key := [5], value := [6] } ∧
    (wt_value_return
      (some [{ type := UpdType.standard, data := [4, 4],
               blob := modify_pack [], visible := true }]) [9]
      { keyExt := true, keyInt := true, valueExt := false, valueInt := true,
        key := [5], value := [6] }).value = [4, 4] := by
  have h := key_skip_value_rematerialize (fun _ => [3])
    { keyExt := true, keyInt := true, valueExt := false, valueInt := true,
      key := [5], value := [6] }
    (some [{ type := UpdType.standard, data := [4, 4],
             blob := modify_pack [], visible := true }]) [9]
  exact ⟨(h.1 rfl).trans (by decide), h.2.2.trans (by decide)⟩
